import Mathlib

/-!
# Verification of the mycitadel-desktop wallet sync / transaction-construction core

Shallow embedding of the engine described in `spec.md`:

* the transaction builder loop of `Component::compose_psbt`
  (`src/view/wallet/component.rs`);
* the electrum synchronisation routine `electrum_sync`, the worker command
  loop of `ElectrumWorker::with`, and `electrum_init`
  (`src/worker/electrum.rs`);
* the consumer-side event handling of `Component::handle_electrum`
  (`src/view/wallet/component.rs`).

Modelling conventions:

* Machine integers (`u16`, `u32`, `u64`, `usize`, `i32`) are modelled as
  `Nat`/`Int`; theorems that depend on a value staying inside the machine
  range carry an explicit hypothesis bounding it.
* Transaction ids, script hashes and server endpoints are opaque and
  modelled as `Nat`.
* The `f32` progress fraction `(no + 1) as f32 / txids.len() as f32 / 20.0`
  is modelled exactly over `ℚ`; every fact proved about it is insensitive to
  `f32` rounding (the values compared differ by more than a factor of 10).
* The remote electrum service is an oracle (`Adapter`): per-script responses
  plus per-call atomic failure flags, matching the batch-call contract of
  the chain client adapter.
* `Wallet::coinselect` and `Psbt::construct` live outside the excerpt
  (`src/model/wallet.rs` is not part of the sources; `Psbt::construct` is in
  the external descriptor-wallet library).  The fee loop is therefore
  parameterised by an arbitrary selection function `cs` and an arbitrary
  next-fee function `nf`; every theorem quantifies over them, so it covers
  the real implementations as instances.
-/

namespace MyCitadel

/-! ## Transaction builder: the fee/size loop of `Component::compose_psbt`

Rust source (`src/view/wallet/component.rs`, lines 94-128):

```
let fee_rate = self.model.fee_rate();
let mut fee = DUST_RELAY_TX_FEE;
let mut next_fee = fee;
let mut prevouts = bset! {};
let satisfaciton_weights = descriptor.max_satisfaction_weight()? as f32;
let mut cycle_lim = 0usize;
while fee <= DUST_RELAY_TX_FEE && fee != next_fee {
    fee = next_fee;
    prevouts = wallet.coinselect(output_value + fee as u64)
        .ok_or(pay::Error::InsufficientFunds)?.0;
    let txins = ...;
    let tx = Transaction { ... };
    let vsize = tx.vsize() as f32 + satisfaciton_weights / WITNESS_SCALE_FACTOR as f32;
    next_fee = (fee_rate * vsize).ceil() as u32;
    cycle_lim += 1;
    if cycle_lim > 6 {
        return Err(pay::Error::FeeFailure);
    }
}
```
-/

/-- `bitcoin::policy::DUST_RELAY_TX_FEE` (3000 sat/kvB), the initial fee
estimate of the builder loop. -/
def DUST_RELAY_TX_FEE : Nat := 3000

/-- `crate::model::Prevout` (spec §3): minimal coin-selection unit projected
from a `UtxoTxid` (see the `From<&UtxoTxid> for Prevout` impl in
`src/worker/electrum.rs`). -/
structure Prevout where
  outpoint : Nat × Nat
  amount : Nat
  change : Bool
  index : Nat
deriving DecidableEq, Repr

/-- Total value of a selected prevout set (`V(selected)` in the spec). -/
def prevoutsValue (l : List Prevout) : Nat :=
  (l.map Prevout.amount).sum

/-- The typed failures of `pay::Error` reachable from the fee loop. -/
inductive PayError where
  | insufficientFunds
  | feeFailure
deriving DecidableEq, Repr

/-- Mutable state of the `while` loop in `compose_psbt`: the variables
`fee`, `next_fee`, `prevouts` and `cycle_lim`. -/
structure ComposeState where
  fee : Nat
  nextFee : Nat
  prevouts : List Prevout
  cycleLim : Nat
deriving DecidableEq, Repr

/-- One-for-one translation of the `while` loop of `compose_psbt`.

* `cs` stands for `wallet.coinselect`: required amount ↦ selected prevout
  set (`none` = insufficient funds).
* `nf` stands for the draft-transaction fee computation
  `(fee_rate * (tx.vsize() + satisfaction_weight/4)).ceil()`: it depends
  only on the selected prevouts, because the outputs, the descriptor and
  the fee-rate are fixed for the whole call.
* `fuel` bounds the recursion depth so the function is total; theorem
  `compose_loop_bounded` below shows fuel `7 - cycleLim` always suffices,
  so the `none` (fuel exhausted) answer never arises from the entry state.

Returns `some (.ok (fee, prevouts))` for normal loop exit — the values that
`compose_psbt` then hands to `Psbt::construct` (external library, out of
scope). -/
def compose_psbt_loop (cs : Nat → Option (List Prevout))
    (nf : List Prevout → Nat) (output_value : Nat) :
    Nat → ComposeState → Option (Except PayError (Nat × List Prevout))
  | 0, _ => none
  | fuel + 1, s =>
    if s.fee ≤ DUST_RELAY_TX_FEE ∧ s.fee ≠ s.nextFee then
      let fee := s.nextFee
      match cs (output_value + fee) with
      | none => some (.error .insufficientFunds)
      | some prevouts =>
        let next_fee := nf prevouts
        let cycle_lim := s.cycleLim + 1
        if cycle_lim > 6 then some (.error .feeFailure)
        else compose_psbt_loop cs nf output_value fuel
          ⟨fee, next_fee, prevouts, cycle_lim⟩
    else some (.ok (s.fee, s.prevouts))

/-- Entry into the fee loop with the initial values of `compose_psbt`:
`fee = DUST_RELAY_TX_FEE`, `next_fee = fee`, `prevouts = bset!{}`,
`cycle_lim = 0`.  Fuel 7 is sufficient (`compose_loop_bounded`). -/
def compose_psbt_fee (cs : Nat → Option (List Prevout))
    (nf : List Prevout → Nat) (output_value : Nat) :
    Option (Except PayError (Nat × List Prevout)) :=
  compose_psbt_loop cs nf output_value 7
    ⟨DUST_RELAY_TX_FEE, DUST_RELAY_TX_FEE, [], 0⟩

/-- The loop guard `fee <= DUST_RELAY_TX_FEE && fee != next_fee` is false at
the entry state (both variables are initialised to `DUST_RELAY_TX_FEE`), so
the loop body never executes: no coin selection happens, the selected set
stays empty and the fee stays at the dust floor. -/
theorem compose_psbt_fee_eq (cs : Nat → Option (List Prevout))
    (nf : List Prevout → Nat) (output_value : Nat) :
    compose_psbt_fee cs nf output_value =
      some (.ok (DUST_RELAY_TX_FEE, [])) := by
  simp [compose_psbt_fee, compose_psbt_loop]

/-- Concrete zero-balance coin selector.
Modelled from the spec: `Wallet::coinselect` (not under `src/`) fails —
returns `None` — whenever the wallet's spendable balance cannot cover the
required amount; with zero spendable balance it fails for every nonzero
required amount, and the loop always requests at least
`output_value + DUST_RELAY_TX_FEE > 0`. -/
def coinselect_zero_balance : Nat → Option (List Prevout) := fun _ => none

/-- A well-funded coin selector used for concrete evaluation: always offers
a single 1,000,000-sat prevout. -/
def coinselect_rich : Nat → Option (List Prevout) :=
  fun _ => some [⟨(1, 0), 1000000, false, 0⟩]

/-- A concrete stand-in for the draft-fee computation: worst-case
satisfaction weight plus an empty-input transaction never prices below
110 vbytes at 2 sat/vb, say 220 sats; any value ≠ 3000 works. -/
def next_fee_sample : List Prevout → Nat := fun _ => 220

/-- C1: the claim asserts that every successful `compose_psbt` run ends at a
fee fixed point `f = ceil(r·vsize(tx_with_f))` with
`V(selected) ≥ O + f`.  The code violates this: because `fee` and
`next_fee` are both initialised to `DUST_RELAY_TX_FEE`, the loop guard is
false on entry, the fixed-point iteration never runs, no prevouts are
selected and the fee stays 3000.  Evaluated at the failing input (beneficiary
total 10000 sats, a well-funded wallet, a draft-fee function pricing the
empty-input transaction at 220 sats): the run exits the loop successfully
with fee 3000 and an empty selection, the fee is not a fixed point of the
draft-fee computation, and the selected value 0 does not cover
`O + f = 13000`. -/
theorem C1_compose_psbt_not_fixed_point :
    compose_psbt_fee coinselect_rich next_fee_sample 10000 =
      some (.ok (3000, [])) ∧
    ¬(3000 = next_fee_sample [] ∧
      10000 + 3000 ≤ prevoutsValue []) := by
  refine ⟨compose_psbt_fee_eq .., ?_⟩
  simp [next_fee_sample, prevoutsValue]

/-- C2: the claim asserts that with zero spendable balance and a nonzero
required amount, `compose_psbt` attempts coin selection on the first
iteration and returns `InsufficientFunds`.  The code violates this: the
loop guard is false on entry (`fee == next_fee` initially), so
`wallet.coinselect` is never called and the function proceeds to build a
PSBT with an empty input set instead of failing.  Evaluated at the failing
input (zero-balance selector, beneficiary total 546 sats): the result is a
successful loop exit, not `InsufficientFunds`. -/
theorem C2_zero_balance_not_insufficient_funds :
    compose_psbt_fee coinselect_zero_balance next_fee_sample 546 =
      some (.ok (3000, [])) ∧
    compose_psbt_fee coinselect_zero_balance next_fee_sample 546 ≠
      some (.error .insufficientFunds) := by
  refine ⟨compose_psbt_fee_eq .., ?_⟩
  rw [compose_psbt_fee_eq]
  simp

/-- C3: the fee/size iteration is bounded.  For every coin selector `cs`,
draft-fee function `nf`, output total and loop state:
1. as soon as the fee estimate does not change between iterations
   (`fee = next_fee`), the loop stops at once, returning the current fee and
   selection;
2. the loop terminates for every input: from any state with at most 6
   completed iterations, fuel `7 - cycleLim` suffices, i.e. the recursion
   never exhausts its fuel (in particular the entry point
   `compose_psbt_fee`, which starts at `cycleLim = 0` with fuel 7, always
   returns);
3. if 6 iterations have completed without the estimate stabilising (the
   guard still holds) and selection succeeds once more, the next iteration
   returns the typed failure `FeeFailure`. -/
theorem C3_compose_loop_bounded (cs : Nat → Option (List Prevout))
    (nf : List Prevout → Nat) (output_value fuel : Nat)
    (s : ComposeState) (pv : List Prevout) :
    (s.fee = s.nextFee → 1 ≤ fuel →
      compose_psbt_loop cs nf output_value fuel s =
        some (.ok (s.fee, s.prevouts))) ∧
    (s.cycleLim ≤ 6 → 7 - s.cycleLim ≤ fuel →
      (compose_psbt_loop cs nf output_value fuel s).isSome) ∧
    (s.cycleLim = 6 → s.fee ≤ DUST_RELAY_TX_FEE → s.fee ≠ s.nextFee →
      cs (output_value + s.nextFee) = some pv → 1 ≤ fuel →
      compose_psbt_loop cs nf output_value fuel s =
        some (.error .feeFailure)) := by
  refine ⟨?_, ?_, ?_⟩
  · intro hstable hfuel
    cases fuel with
    | zero => omega
    | succ fuel => rw [compose_psbt_loop]; simp [hstable]
  · induction fuel generalizing s with
    | zero => intro hcl hfuel; omega
    | succ fuel ih =>
      intro hcl hfuel
      rw [compose_psbt_loop]
      by_cases hguard : s.fee ≤ DUST_RELAY_TX_FEE ∧ s.fee ≠ s.nextFee
      · simp only [if_pos hguard]
        match hcs : cs (output_value + s.nextFee) with
        | none => simp
        | some prevouts =>
          simp only
          by_cases hlim : s.cycleLim + 1 > 6
          · simp [hlim]
          · simp only [if_neg hlim]
            have h1 : s.cycleLim + 1 ≤ 6 := by omega
            have h2 : 7 - (s.cycleLim + 1) ≤ fuel := by omega
            exact ih ⟨s.nextFee, nf prevouts, prevouts, s.cycleLim + 1⟩ h1 h2
      · simp [if_neg hguard]
  · intro hcl hdust hne hcs hfuel
    cases fuel with
    | zero => omega
    | succ fuel =>
      rw [compose_psbt_loop]
      simp [hdust, hne, hcs, hcl]

/-- Witness for `C3_compose_loop_bounded`: concrete instantiations
discharging each conjunct's hypotheses.  The stable state `⟨3000, 3000, [],
0⟩` is the real entry state of `compose_psbt_fee`; the saturated state
`⟨100, 200, [], 6⟩` has run 6 iterations without stabilising. -/
theorem C3_compose_loop_bounded_witness :
    compose_psbt_loop coinselect_rich next_fee_sample 546 7
      ⟨3000, 3000, [], 0⟩ = some (.ok (3000, [])) ∧
    (compose_psbt_loop coinselect_rich next_fee_sample 546 7
      ⟨3000, 3000, [], 0⟩).isSome ∧
    compose_psbt_loop coinselect_rich next_fee_sample 546 1
      ⟨100, 200, [], 6⟩ = some (.error .feeFailure) := by
  refine ⟨?_, ?_, ?_⟩
  · exact (C3_compose_loop_bounded coinselect_rich next_fee_sample 546 7
      ⟨3000, 3000, [], 0⟩ []).1 rfl (by decide)
  · exact (C3_compose_loop_bounded coinselect_rich next_fee_sample 546 7
      ⟨3000, 3000, [], 0⟩ []).2.1 (by decide) (by decide)
  · exact (C3_compose_loop_bounded coinselect_rich next_fee_sample 546 1
      ⟨100, 200, [], 6⟩ [⟨(1, 0), 1000000, false, 0⟩]).2.2 rfl (by decide)
      (by decide) rfl (by decide)

/-! ## Electrum worker: data model (`src/worker/electrum.rs`) -/

/-- `HistoryType` (history entry classification). -/
inductive HistoryType where
  | incoming
  | outcoming
  | change
deriving DecidableEq, Repr

/-- `HistoryTxid`: one wallet-history record.  The `address` field of the
source (derived from the script by the external `AddressCompat` library) is
omitted; `txid` is opaque. -/
structure HistoryTxid where
  txid : Nat
  height : Int
  index : Nat
  ty : HistoryType
deriving DecidableEq, Repr

/-- `UtxoTxid`: one unspent-output record (address omitted as above). -/
structure UtxoTxid where
  txid : Nat
  height : Nat
  vout : Nat
  value : Nat
  index : Nat
  change : Bool
deriving DecidableEq, Repr

/-- Raw per-script history answer of the electrum service
(`GetHistoryRes { tx_hash, height }`). -/
structure RawHist where
  tx_hash : Nat
  height : Int
deriving DecidableEq, Repr

/-- Raw per-script unspent answer of the electrum service
(`ListUnspentRes { tx_hash, height, tx_pos, value }`). -/
structure RawUtxo where
  tx_hash : Nat
  height : Nat
  tx_pos : Nat
  value : Nat
deriving DecidableEq, Repr

/-- The worker→consumer event type `Msg`.  `TxBatch` carries a
`BTreeMap<Txid, Transaction>` in the source whose keys are the fetched
chunk; transaction bodies are opaque, so the event is modelled by the
chunk's txid list together with the `f32` progress value (modelled in `ℚ`).
Fee estimates (`f64`) are modelled in `ℚ` as well. -/
inductive EMsg where
  | connecting
  | connected
  | complete
  | lastBlock (height : Nat)
  | lastBlockUpdate (height : Nat)
  | feeEstimate (f0 f1 f2 : ℚ)
  | historyBatch (batch : List HistoryTxid) (offset : Nat)
  | utxoBatch (batch : List UtxoTxid) (offset : Nat)
  | txBatch (txids : List Nat) (progress : ℚ)
  | channelDisconnected
  | error (e : String)
deriving DecidableEq, Repr

/-- Oracle for the remote electrum service (the chain client adapter).
Batch calls are atomic: a whole-window (resp. whole-chunk) call either
fails with an error message (`histWinFail`/`utxoWinFail`/`txChunkFail`) or
returns the per-script answers (`histAt`/`utxoAt`, keyed by chain flag and
derivation index: scripts are derived deterministically from `(change,
index)`, so they are identified with that pair). -/
structure Adapter where
  tip : Except String Nat
  fees : Except String (ℚ × ℚ × ℚ)
  histAt : Bool → Nat → List RawHist
  histWinFail : Bool → Nat → Option String
  utxoAt : Bool → Nat → List RawUtxo
  utxoWinFail : Bool → Nat → Option String
  txChunkFail : Nat → Option String
  pop : Except String (Option Nat)

/-- The history batch assembled for scan window `w` of one chain: the
per-script answers for derivation indices `20*w ..= 20*w+19`, flattened in
index order, each entry tagged with its index and classified `Change` on
the change chain and `Incoming` otherwise (`electrum_sync`, lines
300-318). -/
def windowHistory (a : Adapter) (change : Bool) (w : Nat) : List HistoryTxid :=
  (List.range 20).flatMap fun i =>
    (a.histAt change (20 * w + i)).map fun res =>
      { txid := res.tx_hash, height := res.height, index := 20 * w + i,
        ty := if change then .change else .incoming }

/-- The unspent batch assembled for scan window `w` of one chain
(`electrum_sync`, lines 333-349). -/
def windowUtxo (a : Adapter) (change : Bool) (w : Nat) : List UtxoTxid :=
  (List.range 20).flatMap fun i =>
    (a.utxoAt change (20 * w + i)).map fun res =>
      { txid := res.tx_hash, height := res.height, vout := res.tx_pos,
        value := res.value, index := 20 * w + i, change := change }

/-- `history_batch.iter().map(|item| item.index).max().unwrap_or_default()`:
the largest derivation index in a batch (0 for the empty batch). -/
def maxIndex (batch : List HistoryTxid) : Nat :=
  (batch.map HistoryTxid.index).foldr max 0

/-- Ordered insertion into the ascending, duplicate-free key list that
models the source's `BTreeSet<Txid>` (`txids`). -/
def btreeInsert (x : Nat) : List Nat → List Nat
  | [] => [x]
  | y :: l =>
    if x < y then x :: y :: l
    else if x = y then y :: l
    else y :: btreeInsert x l

/-- `txids.extend(iter)`: insert every element in iteration order. -/
def btreeExtend (s : List Nat) (xs : List Nat) : List Nat :=
  xs.foldl (fun t y => btreeInsert y t) s

/-- The `f32` progress value of the `no`-th `TxBatch` event:
`(no + 1) as f32 / txids.len() as f32 / 20.0`, modelled exactly over `ℚ`
(`total` is `txids.len()`). -/
def txProgress (no total : Nat) : ℚ :=
  (no + 1 : ℚ) / (total : ℚ) / 20

/-- The per-chain scan loop of `electrum_sync` (lines 294-356).  The window
counter `w` stands for the source's `offset` cursor via `offset = 20 * w`
(`offset` starts at 0 and grows by 20 per window; theorems about the scan
restrict to the range where the source's `u16` offset does not wrap).
State: current window, the running `upto` index, and the accumulated txid
set (a `BTreeSet` in the source).  Returns the emitted events, the final
txid set, the chain's next-free index (the loop's `break upto` value) and
`some e` if an adapter call failed (the `?` propagation).  The outer `none`
means the fuel bound was hit; the loop itself has no bound, so fuel models
its potential divergence on an infinite history. -/
def scanChainT (a : Adapter) (change : Bool) :
    Nat → Nat → Nat → List Nat →
    Option (List EMsg × List Nat × Nat × Option String)
  | 0, _, _, _ => none
  | fuel + 1, w, upto, txids =>
    match a.histWinFail change w with
    | some e => some ([], txids, upto, some e)
    | none =>
      let history_batch := windowHistory a change w
      if history_batch.isEmpty then some ([], txids, upto, none)
      else
        let upto' := maxIndex history_batch
        let txids' := btreeExtend txids (history_batch.map HistoryTxid.txid)
        match a.utxoWinFail change w with
        | some e =>
          some ([.historyBatch history_batch (20 * w)], txids', upto', some e)
        | none =>
          let utxos := windowUtxo a change w
          let txids'' := btreeExtend txids' (utxos.map UtxoTxid.txid)
          match scanChainT a change fuel (w + 1) upto' txids'' with
          | none => none
          | some (t, tx, u, r) =>
            some (.historyBatch history_batch (20 * w) ::
              .utxoBatch utxos (20 * w) :: t, tx, u, r)

/-- The transaction-fetch loop of `electrum_sync` (lines 358-371): for each
20-txid chunk (in order, numbered from 0), either the batch call fails —
aborting with the events emitted so far — or a `TxBatch` event carrying the
chunk and the progress value `(no + 1) / txids.len() / 20.0` is emitted.
`total` is `txids.len()`. -/
def txFetchT (a : Adapter) (total : Nat) :
    List (List Nat) → Nat → List EMsg × Option String
  | [], _ => ([], none)
  | chunk :: rest, no =>
    match a.txChunkFail no with
    | some e => ([], some e)
    | none =>
      let next := txFetchT a total rest (no + 1)
      (.txBatch chunk (txProgress no total) :: next.1, next.2)

/-- `electrum_sync` (lines 266-378): emits `Connecting` then `Connected`
unconditionally (no fallible call between them), subscribes to the chain
tip, fetches the fee estimates, scans the change chain then the receiving
chain, fetches the referenced transactions in chunks of 20 (the txid set is
iterated in ascending order, as a `BTreeSet` is), and finally emits
`Complete`.  The first adapter failure aborts the pass, keeping the events
already emitted; the pair's second component is the `Result` of the Rust
function (`some e` = `Err`).  `none` = the scan fuel ran out. -/
def electrum_sync (a : Adapter) (fuel : Nat) :
    Option (List EMsg × Option String) :=
  match a.tip with
  | .error e => some ([.connecting, .connected], some e)
  | .ok h =>
    match a.fees with
    | .error e => some ([.connecting, .connected, .lastBlock h], some e)
    | .ok (f0, f1, f2) =>
      let pre : List EMsg :=
        [.connecting, .connected, .lastBlock h, .feeEstimate f0 f1 f2]
      match scanChainT a true fuel 0 0 [] with
      | none => none
      | some (t1, _, _, some e) => some (pre ++ t1, some e)
      | some (t1, tx1, _, none) =>
        match scanChainT a false fuel 0 0 tx1 with
        | none => none
        | some (t2, _, _, some e) => some (pre ++ t1 ++ t2, some e)
        | some (t2, tx2, _, none) =>
          let fetched := txFetchT a tx2.length (tx2.toChunks 20) 0
          match fetched.2 with
          | some e => some (pre ++ t1 ++ t2 ++ fetched.1, some e)
          | none => some (pre ++ t1 ++ t2 ++ fetched.1 ++ [.complete], none)

/-! ## The worker command loop (`ElectrumWorker::with`, lines 180-217) -/

/-- The worker's command type `Cmd`.  Server endpoints are opaque (`Nat`). -/
inductive Cmd where
  | sync
  | pull
  | update (server : Nat)
deriving DecidableEq, Repr

/-- Worker-thread state: the current `wallet_settings.electrum()` endpoint
and the current client, `some s` when connected to endpoint `s`. -/
structure WState where
  settings : Nat
  client : Option Nat
deriving DecidableEq, Repr

/-- Environment of the worker: which endpoints accept a connection, and the
chain behaviour behind each endpoint. -/
structure WorkerEnv where
  connects : Nat → Bool
  adapter : Nat → Adapter

/-- `electrum_init` (lines 252-264): attempt to construct a client for the
endpoint; on failure send `Msg::Error` (no `Connecting` event is emitted)
and return no client. -/
def electrum_init (env : WorkerEnv) (server : Nat) : Option Nat × List EMsg :=
  if env.connects server then (some server, [])
  else (none, [.error "connection failed"])

/-- The worker's handling of one `Cmd::Sync`: run `electrum_sync` and, if
it returned `Err`, send `Msg::Error` (the `map_err` wrapper of the command
loop, lines 211-215). -/
def workerSyncEvents (a : Adapter) (fuel : Nat) : Option (List EMsg) :=
  (electrum_sync a fuel).map fun tr =>
    match tr.2 with
    | none => tr.1
    | some e => tr.1 ++ [.error e]

/-- One round of the worker command loop (lines 184-210): the state after
the command and the events sent while handling it.

* `Update` with a live client replaces the stored endpoint and immediately
  re-runs `electrum_init` against it;
* `Sync` with a live client runs a full sync pass;
* `Pull` with a live client drains one queued tip notification;
* any command without a client does nothing (`/* Can't handle since no
  client avaliable */`).

`none` = the sync scan exceeded its fuel. -/
def workerStep (env : WorkerEnv) (fuel : Nat) (st : WState) :
    Cmd → Option (WState × List EMsg)
  | .update server =>
    match st.client with
    | some _ =>
      let init := electrum_init env server
      some ({ settings := server, client := init.1 }, init.2)
    | none => some (st, [])
  | .sync =>
    match st.client with
    | some c => (workerSyncEvents (env.adapter c) fuel).map fun t => (st, t)
    | none => some (st, [])
  | .pull =>
    match st.client with
    | some c =>
      match (env.adapter c).pop with
      | .error e => some (st, [.error e])
      | .ok none => some (st, [])
      | .ok (some h) => some (st, [.lastBlockUpdate h])
    | none => some (st, [])

/-- The consumer's `RetrievingHistory` counter for a batch event
(`Component::handle_electrum`, lines 198-210): `no * 2` for a
`HistoryBatch(_, no)` and `no * 2 + 1` for a `UtxoBatch(_, no)`. -/
def retrievingHistoryOf : EMsg → Option Nat
  | .historyBatch _ no => some (no * 2)
  | .utxoBatch _ no => some (no * 2 + 1)
  | _ => none

/-! ## Closed forms for a successful scan

`scanTrace`, `scanTxids` and `scanUptoVal` give the events, accumulated
txid set and break value of a scan that runs `d` consecutive non-empty
windows starting at window `s` and then halts; `scanChainT_run` proves the
loop computes them. -/

/-- Events of `d` non-empty windows starting at window `s`: a
`HistoryBatch`/`UtxoBatch` pair per window, tagged with the window's
starting offset `20 * w`. -/
def scanTrace (a : Adapter) (c : Bool) : Nat → Nat → List EMsg
  | 0, _ => []
  | d + 1, s =>
    .historyBatch (windowHistory a c s) (20 * s) ::
    .utxoBatch (windowUtxo a c s) (20 * s) :: scanTrace a c d (s + 1)

/-- Txid set accumulated over `d` windows starting at window `s`. -/
def scanTxids (a : Adapter) (c : Bool) : Nat → Nat → List Nat → List Nat
  | 0, _, tx => tx
  | d + 1, s, tx =>
    scanTxids a c d (s + 1)
      (btreeExtend (btreeExtend tx ((windowHistory a c s).map HistoryTxid.txid))
        ((windowUtxo a c s).map UtxoTxid.txid))

/-- The `break upto` value after `d` non-empty windows starting at `s`:
the initial `u` if no window was processed, otherwise the maximal history
index of the last processed window. -/
def scanUptoVal (a : Adapter) (c : Bool) (s d u : Nat) : Nat :=
  if d = 0 then u else maxIndex (windowHistory a c (s + d - 1))

/-- All history entries of the first `W` windows of a chain. -/
def chainEntries (a : Adapter) (c : Bool) (W : Nat) : List HistoryTxid :=
  (List.range W).flatMap (windowHistory a c)

lemma le_foldrMax {l : List Nat} {x : Nat} (h : x ∈ l) :
    x ≤ l.foldr max 0 := by
  induction l with
  | nil => cases h
  | cons a l ih =>
    rcases List.mem_cons.mp h with rfl | h
    · exact le_max_left _ _
    · exact le_trans (ih h) (le_max_right _ _)

lemma foldrMax_le {l : List Nat} {B : Nat} (h : ∀ x ∈ l, x ≤ B) :
    l.foldr max 0 ≤ B := by
  induction l with
  | nil => simp
  | cons a l ih =>
    exact max_le (h a (List.mem_cons_self a l))
      (ih fun x hx => h x (List.mem_cons_of_mem a hx))

lemma maxIndex_append (l1 l2 : List HistoryTxid) :
    maxIndex (l1 ++ l2) = max (maxIndex l1) (maxIndex l2) := by
  unfold maxIndex
  rw [List.map_append]
  induction l1.map HistoryTxid.index with
  | nil => simp
  | cons a l ih => simp [List.foldr_cons, ih, max_assoc]

/-- Every entry of window `w` has a derivation index inside the window's
range `[20*w, 20*w+19]`. -/
lemma windowHistory_index {a : Adapter} {c : Bool} {w : Nat} :
    ∀ e ∈ windowHistory a c w, 20 * w ≤ e.index ∧ e.index < 20 * w + 20 := by
  intro e he
  simp only [windowHistory, List.mem_flatMap, List.mem_map,
    List.mem_range] at he
  obtain ⟨i, hi, res, hres, rfl⟩ := he
  simp only
  omega

lemma maxIndex_window_lt (a : Adapter) (c : Bool) (w : Nat) :
    maxIndex (windowHistory a c w) < 20 * w + 20 := by
  have h := foldrMax_le (l := (windowHistory a c w).map HistoryTxid.index)
    (B := 20 * w + 19) ?_
  · unfold maxIndex; omega
  · intro x hx
    obtain ⟨e, he, rfl⟩ := List.mem_map.mp hx
    have := (windowHistory_index e he).2
    omega

lemma maxIndex_window_ge {a : Adapter} {c : Bool} {w : Nat}
    (h : (windowHistory a c w).isEmpty = false) :
    20 * w ≤ maxIndex (windowHistory a c w) := by
  obtain ⟨e, he⟩ := List.exists_mem_of_ne_nil _
    (by simpa [List.isEmpty_iff] using h)
  calc 20 * w ≤ e.index := (windowHistory_index e he).1
    _ ≤ maxIndex (windowHistory a c w) :=
      le_foldrMax (List.mem_map_of_mem HistoryTxid.index he)

/-- For at least one processed window, the break value is the maximal
history index over all entries of all processed windows (entries of a later
window always carry strictly larger indices). -/
lemma maxIndex_chainEntries (a : Adapter) (c : Bool) (W : Nat)
    (h1 : 1 ≤ W) (hne : (windowHistory a c (W - 1)).isEmpty = false) :
    maxIndex (chainEntries a c W) = maxIndex (windowHistory a c (W - 1)) := by
  obtain ⟨V, rfl⟩ : ∃ V, W = V + 1 := ⟨W - 1, by omega⟩
  simp only [Nat.add_sub_cancel] at hne ⊢
  unfold chainEntries
  rw [List.range_succ, List.flatMap_append]
  rw [show (List.flatMap [V] (windowHistory a c)) = windowHistory a c V by
    simp]
  rw [maxIndex_append]
  refine max_eq_right ?_
  refine le_trans (foldrMax_le ?_) (maxIndex_window_ge hne)
  intro x hx
  obtain ⟨e, he, rfl⟩ := List.mem_map.mp hx
  simp only [List.mem_flatMap, List.mem_range] at he
  obtain ⟨j, hj, hej⟩ := he
  have := (windowHistory_index e hej).2
  omega

lemma scanUptoVal_step (a : Adapter) (c : Bool) (s d u : Nat) :
    scanUptoVal a c (s + 1) d (maxIndex (windowHistory a c s)) =
      scanUptoVal a c s (d + 1) u := by
  cases d with
  | zero => simp [scanUptoVal]
  | succ d =>
    have h1 : s + 1 + (d + 1) - 1 = s + (d + 1 + 1) - 1 := by omega
    simp [scanUptoVal, h1]

/-- A scan whose first `d` windows are non-empty and whose window `s + d`
is empty (with all the adapter calls involved succeeding) halts at window
`s + d`, emitting exactly the per-window event pairs, accumulating exactly
the txids of the processed windows, and breaking with `scanUptoVal`. -/
lemma scanChainT_run (a : Adapter) (c : Bool) :
    ∀ (d s u : Nat) (tx : List Nat) (fuel : Nat), d < fuel →
    (∀ j, j ≤ d → a.histWinFail c (s + j) = none) →
    (∀ j, j < d → a.utxoWinFail c (s + j) = none) →
    (∀ j, j < d → (windowHistory a c (s + j)).isEmpty = false) →
    (windowHistory a c (s + d)).isEmpty = true →
    scanChainT a c fuel s u tx =
      some (scanTrace a c d s, scanTxids a c d s tx,
        scanUptoVal a c s d u, none) := by
  intro d
  induction d with
  | zero =>
    intro s u tx fuel hfuel hhf huf hne hemp
    cases fuel with
    | zero => omega
    | succ fuel =>
      have h0 : a.histWinFail c s = none := by simpa using hhf 0 (by omega)
      have hemp0 : (windowHistory a c s).isEmpty = true := by
        simpa using hemp
      rw [scanChainT, h0]
      simp [hemp0, scanTrace, scanTxids, scanUptoVal]
  | succ d ih =>
    intro s u tx fuel hfuel hhf huf hne hemp
    cases fuel with
    | zero => omega
    | succ fuel =>
      have h0 : a.histWinFail c s = none := by simpa using hhf 0 (by omega)
      have hne0 : (windowHistory a c s).isEmpty = false := by
        simpa using hne 0 (by omega)
      have hu0 : a.utxoWinFail c s = none := by simpa using huf 0 (by omega)
      have hrec := ih (s + 1) (maxIndex (windowHistory a c s))
        (btreeExtend (btreeExtend tx ((windowHistory a c s).map HistoryTxid.txid))
          ((windowUtxo a c s).map UtxoTxid.txid))
        fuel (by omega)
        (fun j hj => by
          have h : s + 1 + j = s + (j + 1) := by omega
          rw [h]; exact hhf (j + 1) (by omega))
        (fun j hj => by
          have h : s + 1 + j = s + (j + 1) := by omega
          rw [h]; exact huf (j + 1) (by omega))
        (fun j hj => by
          have h : s + 1 + j = s + (j + 1) := by omega
          rw [h]; exact hne (j + 1) (by omega))
        (by have h : s + 1 + d = s + (d + 1) := by omega
            rw [h]; exact hemp)
      rw [scanChainT, h0]
      simp only [hne0, Bool.false_eq_true, if_false, hu0, hrec]
      rw [scanUptoVal_step a c s d u]
      rfl

/-- A scan whose first `d` windows are all non-empty (calls succeeding) is
still running after `fuel ≤ d` window queries: the loop does not halt
before the first empty window. -/
lemma scanChainT_no_halt (a : Adapter) (c : Bool) :
    ∀ (fuel d s u : Nat) (tx : List Nat), fuel ≤ d →
    (∀ j, j < d → a.histWinFail c (s + j) = none) →
    (∀ j, j < d → a.utxoWinFail c (s + j) = none) →
    (∀ j, j < d → (windowHistory a c (s + j)).isEmpty = false) →
    scanChainT a c fuel s u tx = none := by
  intro fuel
  induction fuel with
  | zero => intro d s u tx _ _ _ _; rfl
  | succ fuel ih =>
    intro d s u tx hfuel hhf huf hne
    have h0 : a.histWinFail c s = none := by simpa using hhf 0 (by omega)
    have hne0 : (windowHistory a c s).isEmpty = false := by
      simpa using hne 0 (by omega)
    have hu0 : a.utxoWinFail c s = none := by simpa using huf 0 (by omega)
    have hrec := ih (d - 1) (s + 1) (maxIndex (windowHistory a c s))
      (btreeExtend (btreeExtend tx ((windowHistory a c s).map HistoryTxid.txid))
        ((windowUtxo a c s).map UtxoTxid.txid))
      (by omega)
      (fun j hj => by
        have h : s + 1 + j = s + (j + 1) := by omega
        rw [h]; exact hhf (j + 1) (by omega))
      (fun j hj => by
        have h : s + 1 + j = s + (j + 1) := by omega
        rw [h]; exact huf (j + 1) (by omega))
      (fun j hj => by
        have h : s + 1 + j = s + (j + 1) := by omega
        rw [h]; exact hne (j + 1) (by omega))
    rw [scanChainT, h0]
    simp only [hne0, Bool.false_eq_true, if_false, hu0, hrec]

/-- C4: for each chain scanned with window size 20 from offset 0, the scan
halts exactly at the first window `W` whose batched history query returns
zero entries — with fuel for only `W` window queries it is still running,
with `W + 1` it halts — and the chain's next-free index is the maximal
derivation index over the entries of all non-empty windows (`chainEntries`;
0 when `W = 0`), never an index of the halting empty window (for `W ≥ 1`
the value is below `20 * W`, the empty window's first index).  The bound
`20 * W + 19 ≤ 65535` keeps the source's `u16` offset cursor from
wrapping. -/
theorem C4_scan_first_empty_window (a : Adapter) (c : Bool) (W : Nat)
    (hhf : ∀ w, a.histWinFail c w = none)
    (huf : ∀ w, a.utxoWinFail c w = none)
    (hempty : (windowHistory a c W).isEmpty = true)
    (hfull : ∀ j, j < W → (windowHistory a c j).isEmpty = false)
    (hu16 : 20 * W + 19 ≤ 65535) :
    (∀ fuel, fuel ≤ W → scanChainT a c fuel 0 0 [] = none) ∧
    (∀ fuel, W < fuel → scanChainT a c fuel 0 0 [] =
      some (scanTrace a c W 0, scanTxids a c W 0 [],
        maxIndex (chainEntries a c W), none)) ∧
    (1 ≤ W → maxIndex (chainEntries a c W) < 20 * W) := by
  have hky : scanUptoVal a c 0 W 0 = maxIndex (chainEntries a c W) := by
    cases W with
    | zero => simp [scanUptoVal, chainEntries, maxIndex]
    | succ V =>
      rw [maxIndex_chainEntries a c (V + 1) (by omega)
        (by simpa using hfull V (by omega))]
      simp [scanUptoVal]
  refine ⟨?_, ?_, ?_⟩
  · intro fuel hfuel
    exact scanChainT_no_halt a c fuel W 0 0 [] hfuel
      (fun j _ => by simpa using hhf j)
      (fun j _ => by simpa using huf j)
      (fun j hj => by simpa using hfull j hj)
  · intro fuel hfuel
    rw [scanChainT_run a c W 0 0 [] fuel hfuel
      (fun j _ => by simpa using hhf j)
      (fun j _ => by simpa using huf j)
      (fun j hj => by simpa using hfull j hj)
      (by simpa using hempty)]
    rw [hky]
  · intro hW
    rw [← hky]
    unfold scanUptoVal
    rw [if_neg (by omega)]
    have := maxIndex_window_lt a c (0 + W - 1)
    omega

/-! ## Concrete adapters for evaluation -/

/-- Adapter with a single history record: txid 77 at change-chain
derivation index 5; everything else empty, every call succeeding. -/
def sampleAdapter : Adapter where
  tip := .ok 0
  fees := .ok (1, 1, 1)
  histAt := fun c i => if c && (i == 5) then [⟨77, 3⟩] else []
  histWinFail := fun _ _ => none
  utxoAt := fun _ _ => []
  utxoWinFail := fun _ _ => none
  txChunkFail := fun _ => none
  pop := .ok none

/-- Adapter with two non-empty change-chain windows: txid 77 at index 5
(window 0) and txid 78 at index 25 (window 1). -/
def sampleAdapter2 : Adapter where
  tip := .ok 0
  fees := .ok (1, 1, 1)
  histAt := fun c i =>
    if c && (i == 5) then [⟨77, 3⟩]
    else if c && (i == 25) then [⟨78, 3⟩]
    else []
  histWinFail := fun _ _ => none
  utxoAt := fun _ _ => []
  utxoWinFail := fun _ _ => none
  txChunkFail := fun _ => none
  pop := .ok none

/-- Adapter for a wallet with zero history on both chains. -/
def zeroHistAdapter : Adapter where
  tip := .ok 0
  fees := .ok (1, 1, 1)
  histAt := fun _ _ => []
  histWinFail := fun _ _ => none
  utxoAt := fun _ _ => []
  utxoWinFail := fun _ _ => none
  txChunkFail := fun _ => none
  pop := .ok none

/-- Adapter whose chain-tip subscription fails (and whose tip drain fails
too). -/
def deadTipAdapter : Adapter where
  tip := .error "no tip"
  fees := .ok (1, 1, 1)
  histAt := fun _ _ => []
  histWinFail := fun _ _ => none
  utxoAt := fun _ _ => []
  utxoWinFail := fun _ _ => none
  txChunkFail := fun _ => none
  pop := .error "pop failed"

/-- Witness for `C4_scan_first_empty_window` at `sampleAdapter` (change
chain, first empty window `W = 1`): fuel 1 does not halt, fuel 2 halts with
next-free index `maxIndex (chainEntries …) = 5 < 20`. -/
theorem C4_scan_first_empty_window_witness :
    scanChainT sampleAdapter true 1 0 0 [] = none ∧
    scanChainT sampleAdapter true 2 0 0 [] =
      some (scanTrace sampleAdapter true 1 0, scanTxids sampleAdapter true 1 0 [],
        maxIndex (chainEntries sampleAdapter true 1), none) ∧
    maxIndex (chainEntries sampleAdapter true 1) < 20 * 1 := by
  have h := C4_scan_first_empty_window sampleAdapter true 1
    (fun w => rfl) (fun w => rfl) (by decide) (by decide) (by decide)
  exact ⟨h.1 1 (by decide), h.2.1 2 (by decide), h.2.2 (by decide)⟩

lemma scanTrace_length (a : Adapter) (c : Bool) :
    ∀ d s, (scanTrace a c d s).length = 2 * d := by
  intro d
  induction d with
  | zero => intro s; rfl
  | succ d ih => intro s; simp [scanTrace, ih (s + 1)]; omega

/-- Position `2 * w` of a scan trace holds window `w`'s `HistoryBatch`,
position `2 * w + 1` its `UtxoBatch`, both tagged `20 * (s + w)`. -/
lemma scanTrace_getElem (a : Adapter) (c : Bool) :
    ∀ (w d s : Nat), w < d →
    (scanTrace a c d s)[2 * w]? =
      some (.historyBatch (windowHistory a c (s + w)) (20 * (s + w))) ∧
    (scanTrace a c d s)[2 * w + 1]? =
      some (.utxoBatch (windowUtxo a c (s + w)) (20 * (s + w))) := by
  intro w
  induction w with
  | zero =>
    intro d s hw
    obtain ⟨d, rfl⟩ : ∃ e, d = e + 1 := ⟨d - 1, by omega⟩
    simp [scanTrace]
  | succ w ih =>
    intro d s hw
    obtain ⟨d, rfl⟩ : ∃ e, d = e + 1 := ⟨d - 1, by omega⟩
    have h2 : 2 * (w + 1) = (2 * w + 1) + 1 := by omega
    have h3 : 2 * (w + 1) + 1 = (2 * w + 1 + 1) + 1 := by omega
    have hs : s + 1 + w = s + (w + 1) := by omega
    have := ih d (s + 1) (by omega)
    rw [hs] at this
    constructor
    · rw [h2, scanTrace]
      simpa using this.1
    · rw [h3, scanTrace]
      simpa using this.2

/-- C10: within every non-empty scan window the `HistoryBatch` event comes
immediately before the `UtxoBatch` event of the same window (trace
positions `2*w` and `2*w + 1`), both carry the window's starting
script-derivation offset `20 * w` as their tag, and the consumer's
`RetrievingHistory` counters derived from them are `tag*2 = 40*w` and
`tag*2 + 1 = 40*w + 1` — so between consecutive windows the history-batch
counter jumps by 40, not by 2. -/
theorem C10_window_events (a : Adapter) (c : Bool) (W fuel : Nat)
    (hhf : ∀ w, a.histWinFail c w = none)
    (huf : ∀ w, a.utxoWinFail c w = none)
    (hempty : (windowHistory a c W).isEmpty = true)
    (hfull : ∀ j, j < W → (windowHistory a c j).isEmpty = false)
    (hu16 : 20 * W + 19 ≤ 65535)
    (hfuel : W < fuel) (t : List EMsg) (rest : List Nat × Nat × Option String)
    (ht : scanChainT a c fuel 0 0 [] = some (t, rest)) :
    ∀ w, w < W →
      t[2 * w]? = some (.historyBatch (windowHistory a c w) (20 * w)) ∧
      t[2 * w + 1]? = some (.utxoBatch (windowUtxo a c w) (20 * w)) ∧
      (t[2 * w]?.bind retrievingHistoryOf) = some (40 * w) ∧
      (t[2 * w + 1]?.bind retrievingHistoryOf) = some (40 * w + 1) ∧
      (w + 1 < W →
        (t[2 * (w + 1)]?.bind retrievingHistoryOf) =
          (t[2 * w]?.bind retrievingHistoryOf).map (· + 40)) := by
  have hrun := scanChainT_run a c W 0 0 [] fuel hfuel
    (fun j _ => by simpa using hhf j)
    (fun j _ => by simpa using huf j)
    (fun j hj => by simpa using hfull j hj)
    (by simpa using hempty)
  rw [hrun] at ht
  obtain ⟨rfl, -⟩ : t = scanTrace a c W 0 ∧ rest =
      (scanTxids a c W 0 [], scanUptoVal a c 0 W 0, none) := by
    simpa [eq_comm] using ht
  intro w hw
  have hget := scanTrace_getElem a c w W 0 hw
  simp only [Nat.zero_add] at hget
  have e1 := hget.1
  have e2 := hget.2
  refine ⟨e1, e2, ?_, ?_, ?_⟩
  · rw [e1]
    simp only [Option.some_bind, retrievingHistoryOf, Option.some.injEq]
    omega
  · rw [e2]
    simp only [Option.some_bind, retrievingHistoryOf, Option.some.injEq]
    omega
  · intro hw1
    have hget1 := scanTrace_getElem a c (w + 1) W 0 hw1
    simp only [Nat.zero_add] at hget1
    rw [e1, hget1.1]
    simp only [Option.some_bind, retrievingHistoryOf, Option.map_some,
      Option.map_some', Option.some.injEq]
    omega

/-- Witness for `C10_window_events` at `sampleAdapter2` (two non-empty
change-chain windows, halting window `W = 2`). -/
theorem C10_window_events_witness :
    (scanTrace sampleAdapter2 true 2 0)[0]? =
      some (.historyBatch [⟨77, 3, 5, .change⟩] 0) ∧
    (scanTrace sampleAdapter2 true 2 0)[1]? =
      some (.utxoBatch [] 0) ∧
    ((scanTrace sampleAdapter2 true 2 0)[0]?.bind retrievingHistoryOf) =
      some 0 ∧
    ((scanTrace sampleAdapter2 true 2 0)[1]?.bind retrievingHistoryOf) =
      some 1 ∧
    ((scanTrace sampleAdapter2 true 2 0)[2]?.bind retrievingHistoryOf) =
      ((scanTrace sampleAdapter2 true 2 0)[0]?.bind retrievingHistoryOf).map
        (· + 40) := by
  have h := C10_window_events sampleAdapter2 true 2 3
    (fun w => rfl) (fun w => rfl) (by decide) (by decide) (by decide)
    (by decide) (scanTrace sampleAdapter2 true 2 0)
    (scanTxids sampleAdapter2 true 2 0 [], scanUptoVal sampleAdapter2 true 0 2 0,
      none) ?ht 0 (by decide)
  case ht =>
    exact scanChainT_run sampleAdapter2 true 2 0 0 [] 3 (by decide)
      (fun j _ => rfl) (fun j _ => rfl)
      (fun j hj => by interval_cases j <;> decide) (by decide)
  obtain ⟨h1, h2, h3, h4, h5⟩ := h
  have hb1 : windowHistory sampleAdapter2 true 0 = [⟨77, 3, 5, .change⟩] := by
    decide
  have hb2 : windowUtxo sampleAdapter2 true 0 = [] := by decide
  refine ⟨?_, ?_, ?_, ?_, h5 (by decide)⟩
  · rw [h1, hb1]
  · rw [h2, hb2]
  · simpa using h3
  · simpa using h4

/-! ## Full-sync event traces: C5, C6 -/

/-- Recogniser for `HistoryBatch` events. -/
def isHistoryBatchE : EMsg → Bool
  | .historyBatch _ _ => true
  | _ => false

/-- C5 counterexample: for a wallet with zero history on both chains the
claim requires one empty-window `HistoryBatch` event per chain (two in
total, batch length 0) before `Complete`.  Running the sync against the
zero-history adapter yields the trace `Connecting, Connected, LastBlock,
FeeEstimate, Complete` — it contains zero `HistoryBatch` events, because
`electrum_sync` breaks out of the scan loop on an empty window *before* the
`send(HistoryBatch)` statement. -/
theorem C5_counterexample :
    workerSyncEvents zeroHistAdapter 1 =
      some [.connecting, .connected, .lastBlock 0, .feeEstimate 1 1 1,
        .complete] ∧
    ([.connecting, .connected, .lastBlock 0, .feeEstimate 1 1 1,
        (.complete : EMsg)].countP isHistoryBatchE) = 0 := by
  constructor
  · rfl
  · rfl

/-- C5 amended: a full sync over a descriptor with zero history on both
chains emits *no* `HistoryBatch` (nor `UtxoBatch`, nor `TxBatch`) events at
all: the first (empty) window halts each chain's scan silently, and the
complete event sequence is `Connecting, Connected, LastBlock(tip),
FeeEstimate(f1,f2,f3), Complete`. -/
theorem C5_zero_history_trace (a : Adapter) (fuel h : Nat) (f0 f1 f2 : ℚ)
    (htip : a.tip = .ok h) (hfees : a.fees = .ok (f0, f1, f2))
    (hhf : ∀ c : Bool, a.histWinFail c 0 = none)
    (hzero : ∀ c : Bool, (windowHistory a c 0).isEmpty = true)
    (hfuel : 1 ≤ fuel) :
    workerSyncEvents a fuel =
      some [.connecting, .connected, .lastBlock h, .feeEstimate f0 f1 f2,
        .complete] := by
  have hscan : ∀ c : Bool, ∀ tx : List Nat,
      scanChainT a c fuel 0 0 tx = some ([], tx, 0, none) := by
    intro c tx
    have := scanChainT_run a c 0 0 0 tx fuel (by omega)
      (fun j hj => by
        have hj0 : j = 0 := by omega
        subst hj0
        simpa using hhf c)
      (fun j hj => by omega)
      (fun j hj => by omega)
      (by simpa using hzero c)
    simpa [scanTrace, scanTxids, scanUptoVal] using this
  unfold workerSyncEvents electrum_sync
  rw [htip, hfees]
  simp [hscan, txFetchT, List.toChunks]

/-- Witness for `C5_zero_history_trace` at the zero-history adapter. -/
theorem C5_zero_history_trace_witness :
    workerSyncEvents zeroHistAdapter 2 =
      some [.connecting, .connected, .lastBlock 0, .feeEstimate 1 1 1,
        .complete] :=
  C5_zero_history_trace zeroHistAdapter 2 0 1 1 1 rfl rfl (fun c => rfl)
    (by decide) (by decide)

/-- C6: the claim asserts the `fractionComplete` carried by `TxBatch`
events reaches 1.0 on the final batch.  The code computes
`(no + 1) as f32 / txids.len() as f32 / 20.0`, i.e. `(no+1)/(20·n)`: for
the sync below (exactly one referenced txid, so a single — final — batch)
the only `TxBatch` event carries fraction `1/20`, not `1.0`.  (The other
two conjuncts of the claim — deduplicated union of txids, batches of
20 — do hold; the fraction conjunct is the false one.) -/
theorem C6_fraction_never_reaches_one :
    workerSyncEvents sampleAdapter 2 =
      some [.connecting, .connected, .lastBlock 0, .feeEstimate 1 1 1,
        .historyBatch [⟨77, 3, 5, .change⟩] 0, .utxoBatch [] 0,
        .txBatch [77] (txProgress 0 1), .complete] ∧
    txProgress 0 1 ≠ 1 := by
  refine ⟨rfl, ?_⟩
  rw [txProgress]
  norm_num

/-! ## Event-order and failure semantics: C7, C8, C9 -/

/-- Recogniser for the per-window scan events. -/
def isWindowBatch : EMsg → Bool
  | .historyBatch _ _ => true
  | .utxoBatch _ _ => true
  | _ => false

/-- Recogniser for `TxBatch` events. -/
def isTxBatchE : EMsg → Bool
  | .txBatch _ _ => true
  | _ => false

/-- Every event emitted by the scan loop is a `HistoryBatch` or a
`UtxoBatch`, whether the scan ends normally or on a failed call. -/
lemma scanChainT_events (a : Adapter) (c : Bool) :
    ∀ (fuel w u : Nat) (tx : List Nat) t rest,
    scanChainT a c fuel w u tx = some (t, rest) →
    ∀ e ∈ t, isWindowBatch e = true := by
  intro fuel
  induction fuel with
  | zero =>
    intro w u tx t rest h
    simp [scanChainT] at h
  | succ fuel ih =>
    intro w u tx t rest h e he
    rw [scanChainT] at h
    cases hh : a.histWinFail c w with
    | some err =>
      simp only [hh] at h
      obtain ⟨rfl, -⟩ := by simpa using h
      simp at he
    | none =>
      simp only [hh] at h
      cases hb : (windowHistory a c w).isEmpty with
      | true =>
        simp only [hb, if_true] at h
        obtain ⟨rfl, -⟩ := by simpa using h
        simp at he
      | false =>
        simp only [hb, Bool.false_eq_true, if_false] at h
        cases hu : a.utxoWinFail c w with
        | some err =>
          simp only [hu] at h
          obtain ⟨rfl, -⟩ := by simpa using h
          simp only [List.mem_singleton] at he
          subst he
          rfl
        | none =>
          simp only [hu] at h
          cases hr : scanChainT a c fuel (w + 1) (maxIndex (windowHistory a c w))
              (btreeExtend (btreeExtend tx
                ((windowHistory a c w).map HistoryTxid.txid))
                ((windowUtxo a c w).map UtxoTxid.txid)) with
          | none => simp [hr] at h
          | some res =>
            obtain ⟨t1, rest1⟩ := res
            simp only [hr] at h
            obtain ⟨rfl, -⟩ := by simpa using h
            rcases List.mem_cons.mp he with rfl | he
            · rfl
            rcases List.mem_cons.mp he with rfl | he
            · rfl
            exact ih (w + 1) _ _ t1 rest1 hr e he

/-- Every event emitted by the transaction-fetch loop is a `TxBatch`. -/
lemma txFetchT_events (a : Adapter) (total : Nat) :
    ∀ (chunks : List (List Nat)) (no : Nat),
    ∀ e ∈ (txFetchT a total chunks no).1, isTxBatchE e = true := by
  intro chunks
  induction chunks with
  | nil => intro no e he; simp [txFetchT] at he
  | cons chunk rest ih =>
    intro no e he
    rw [txFetchT] at he
    cases hc : a.txChunkFail no with
    | some err => simp only [hc] at he; simp at he
    | none =>
      simp only [hc] at he
      rcases List.mem_cons.mp he with rfl | he
      · rfl
      · exact ih (no + 1) e he

/-- The prefix events and any window/tx batch events never include
`Complete`. -/
lemma complete_not_mem (hh : Nat) (f0 f1 f2 : ℚ) (l : List EMsg)
    (hl : ∀ e ∈ l, isWindowBatch e = true ∨ isTxBatchE e = true) :
    (EMsg.complete ∉
      (.connecting :: .connected :: .lastBlock hh ::
        .feeEstimate f0 f1 f2 :: l : List EMsg)) := by
  intro hmem
  simp only [List.mem_cons] at hmem
  rcases hmem with h | h | h | h | h
  · exact EMsg.noConfusion h
  · exact EMsg.noConfusion h
  · exact EMsg.noConfusion h
  · exact EMsg.noConfusion h
  · rcases hl _ h with hb | hb <;> simp [isWindowBatch, isTxBatchE] at hb

/-- Structure of every `electrum_sync` outcome: the trace always begins
`Connecting, Connected`; a successful pass is exactly the `LastBlock`,
`FeeEstimate`, change-chain scan events, receiving-chain scan events,
`TxBatch` events, `Complete` sequence in that order; a failed pass never
contains `Complete`. -/
lemma electrum_sync_shape (a : Adapter) (fuel : Nat) (t : List EMsg)
    (r : Option String) (h0 : electrum_sync a fuel = some (t, r)) :
    t.take 2 = [.connecting, .connected] ∧
    (r = none → ∃ h f0 f1 f2 t1 x1 u1 t2 x2 u2,
      a.tip = .ok h ∧ a.fees = .ok (f0, f1, f2) ∧
      scanChainT a true fuel 0 0 [] = some (t1, x1, u1, none) ∧
      scanChainT a false fuel 0 0 x1 = some (t2, x2, u2, none) ∧
      t = [.connecting, .connected, .lastBlock h, .feeEstimate f0 f1 f2] ++
        t1 ++ t2 ++ (txFetchT a x2.length (x2.toChunks 20) 0).1 ++
        [.complete] ∧
      (∀ e ∈ t1, isWindowBatch e = true) ∧
      (∀ e ∈ t2, isWindowBatch e = true) ∧
      (∀ e ∈ (txFetchT a x2.length (x2.toChunks 20) 0).1,
        isTxBatchE e = true)) ∧
    (∀ e2, r = some e2 → .complete ∉ t) := by
  have h := h0
  unfold electrum_sync at h
  cases htip : a.tip with
  | error e =>
    simp only [htip] at h
    obtain ⟨rfl, rfl⟩ := by simpa using h
    refine ⟨rfl, fun hr => absurd hr (by simp), fun e2 _ => by simp⟩
  | ok hh =>
    simp only [htip] at h
    cases hfees : a.fees with
    | error e =>
      simp only [hfees] at h
      obtain ⟨rfl, rfl⟩ := by simpa using h
      refine ⟨rfl, fun hr => absurd hr (by simp), fun e2 _ => by simp⟩
    | ok fs =>
      obtain ⟨f0, f1, f2⟩ := fs
      simp only [hfees] at h
      cases hs1 : scanChainT a true fuel 0 0 [] with
      | none => simp [hs1] at h
      | some res1 =>
        obtain ⟨t1, x1, u1, r1⟩ := res1
        cases r1 with
        | some e1 =>
          simp only [hs1] at h
          obtain ⟨rfl, rfl⟩ := by simpa using h
          refine ⟨rfl, fun hr => absurd hr (by simp), fun e2 _ => ?_⟩
          exact complete_not_mem hh f0 f1 f2 t1
            (fun e he => Or.inl (scanChainT_events a true fuel 0 0 [] t1 _
              hs1 e he))
        | none =>
          simp only [hs1] at h
          cases hs2 : scanChainT a false fuel 0 0 x1 with
          | none => simp [hs2] at h
          | some res2 =>
            obtain ⟨t2, x2, u2, r2⟩ := res2
            cases r2 with
            | some e2 =>
              simp only [hs2] at h
              obtain ⟨rfl, rfl⟩ := by simpa using h
              refine ⟨rfl, fun hr => absurd hr (by simp),
                fun e3 _ => ?_⟩
              refine complete_not_mem hh f0 f1 f2 (t1 ++ t2) ?_
              intro e he
              rcases List.mem_append.mp he with he | he
              · exact Or.inl (scanChainT_events a true fuel 0 0 [] t1 _
                  hs1 e he)
              · exact Or.inl (scanChainT_events a false fuel 0 0 x1 t2 _
                  hs2 e he)
            | none =>
              simp only [hs2] at h
              cases hf : (txFetchT a x2.length (x2.toChunks 20) 0).2 with
              | some e3 =>
                simp only [hf] at h
                obtain ⟨rfl, rfl⟩ := by simpa using h
                refine ⟨rfl, fun hr => absurd hr (by simp),
                  fun e4 _ => ?_⟩
                refine complete_not_mem hh f0 f1 f2
                  (t1 ++ (t2 ++ (txFetchT a x2.length (x2.toChunks 20) 0).1))
                  ?_
                intro e he
                rcases List.mem_append.mp he with he | he
                · exact Or.inl (scanChainT_events a true fuel 0 0 [] t1 _
                    hs1 e he)
                rcases List.mem_append.mp he with he | he
                · exact Or.inl (scanChainT_events a false fuel 0 0 x1 t2 _
                    hs2 e he)
                · exact Or.inr (txFetchT_events a x2.length (x2.toChunks 20)
                    0 e he)
              | none =>
                simp only [hf] at h
                obtain ⟨rfl, rfl⟩ := by simpa using h
                refine ⟨rfl, fun _ => ?_, fun e4 hr => absurd hr (by simp)⟩
                exact ⟨hh, f0, f1, f2, t1, x1, u1, t2, x2, u2, rfl, rfl,
                  rfl, hs2, by simp,
                  scanChainT_events a true fuel 0 0 [] t1 _ hs1,
                  scanChainT_events a false fuel 0 0 x1 t2 _ hs2,
                  txFetchT_events a x2.length (x2.toChunks 20) 0⟩

/-- Environment whose every endpoint accepts connections and behaves as the
zero-history chain. -/
def sampleEnv : WorkerEnv where
  connects := fun _ => true
  adapter := fun _ => zeroHistAdapter

/-- Environment whose every endpoint refuses new connections and whose
chain calls fail. -/
def sampleEnvFail : WorkerEnv where
  connects := fun _ => false
  adapter := fun _ => deadTipAdapter

/-- The event-sequence shape claimed by C7, as a decidable check over a
trace: either `Connecting` directly followed by a single `Error` (the
claimed connection-failure shape), or `Connecting, Connected,
LastBlock, FeeEstimate`, then window batches, then `TxBatch` events, then
`Complete`. -/
def c7ClaimShape (t : List EMsg) : Bool :=
  match t with
  | [.connecting, .error _] => true
  | .connecting :: .connected :: .lastBlock _ :: .feeEstimate _ _ _ :: rest =>
    ((rest.dropWhile isWindowBatch).dropWhile isTxBatchE) == [.complete]
  | _ => false

/-- C7 counterexample.  The claim says every FullSync command produces
either `Connecting, Error` (connection failure) or the full
`Connecting, Connected, …, Complete` sequence.  Two concrete runs violate
it: (1) when the first adapter call (tip subscription) fails, the worker
emits `Connecting, Connected, Error` — `Connected` is sent unconditionally
before any fallible call, so the trace matches neither claimed shape;
(2) when no client exists, a FullSync command produces no events at all
(not even `Connecting`). -/
theorem C7_counterexample :
    workerSyncEvents deadTipAdapter 1 =
      some [.connecting, .connected, .error "no tip"] ∧
    c7ClaimShape [.connecting, .connected, .error "no tip"] = false ∧
    workerStep sampleEnv 1 ⟨0, none⟩ .sync = some (⟨0, none⟩, []) ∧
    c7ClaimShape [] = false := by
  exact ⟨rfl, rfl, rfl, rfl⟩

/-- C7 amended: a FullSync command with no live client produces no events.
With a live client the trace always begins `Connecting, Connected` (both
emitted unconditionally, before any adapter call — there is no connection
attempt during a sync); if every adapter call succeeds the full trace is
exactly `Connecting, Connected, LastBlock(tip), FeeEstimate(f1,f2,f3)`,
the change-chain scan events, the receiving-chain scan events (window
batches only), the `TxBatch` events, and finally `Complete`; if an adapter
call fails, the events emitted so far stand, a single `Error` event is
appended, and `Complete` never appears. -/
theorem C7_event_order (env : WorkerEnv) (st : WState) (a : Adapter)
    (fuel : Nat) :
    (st.client = none → workerStep env fuel st .sync = some (st, [])) ∧
    (∀ t r, electrum_sync a fuel = some (t, r) →
      t.take 2 = [.connecting, .connected] ∧
      (r = none → workerSyncEvents a fuel = some t ∧
        ∃ h f0 f1 f2 t1 x1 u1 t2 x2 u2,
          a.tip = .ok h ∧ a.fees = .ok (f0, f1, f2) ∧
          scanChainT a true fuel 0 0 [] = some (t1, x1, u1, none) ∧
          scanChainT a false fuel 0 0 x1 = some (t2, x2, u2, none) ∧
          t = [.connecting, .connected, .lastBlock h, .feeEstimate f0 f1 f2] ++
            t1 ++ t2 ++ (txFetchT a x2.length (x2.toChunks 20) 0).1 ++
            [.complete] ∧
          (∀ e ∈ t1, isWindowBatch e = true) ∧
          (∀ e ∈ t2, isWindowBatch e = true) ∧
          (∀ e ∈ (txFetchT a x2.length (x2.toChunks 20) 0).1,
            isTxBatchE e = true)) ∧
      (∀ e, r = some e →
        workerSyncEvents a fuel = some (t ++ [.error e]) ∧
        .complete ∉ t)) := by
  constructor
  · intro hnone
    simp [workerStep, hnone]
  · intro t r h
    obtain ⟨hA, hB, hC⟩ := electrum_sync_shape a fuel t r h
    refine ⟨hA, ?_, ?_⟩
    · intro hr
      subst hr
      refine ⟨?_, hB rfl⟩
      unfold workerSyncEvents
      rw [h]
      rfl
    · intro e hr
      subst hr
      refine ⟨?_, hC e rfl⟩
      unfold workerSyncEvents
      rw [h]
      rfl

/-- Witness for `C7_event_order`: the no-client case, the unconditional
`Connecting, Connected` prefix of a successful pass, and the
`Error`-terminated failing pass, all at concrete inputs. -/
theorem C7_event_order_witness :
    workerStep sampleEnv 1 ⟨0, none⟩ .sync = some (⟨0, none⟩, []) ∧
    (([.connecting, .connected, .lastBlock 0, .feeEstimate 1 1 1,
      (.complete : EMsg)] : List EMsg).take 2 =
        [.connecting, .connected]) ∧
    workerSyncEvents deadTipAdapter 1 =
      some ([.connecting, .connected] ++ [.error "no tip"]) ∧
    .complete ∉ ([.connecting, .connected] : List EMsg) := by
  have hs : electrum_sync zeroHistAdapter 1 =
      some ([.connecting, .connected, .lastBlock 0, .feeEstimate 1 1 1,
        .complete], none) := rfl
  have hf : electrum_sync deadTipAdapter 1 =
      some ([.connecting, .connected], some "no tip") := rfl
  refine ⟨(C7_event_order sampleEnv ⟨0, none⟩ zeroHistAdapter 1).1 rfl,
    ((C7_event_order sampleEnv ⟨0, none⟩ zeroHistAdapter 1).2 _ _ hs).1,
    (((C7_event_order sampleEnv ⟨0, none⟩ deadTipAdapter 1).2 _ _ hf).2.2
      "no tip" rfl).1,
    (((C7_event_order sampleEnv ⟨0, none⟩ deadTipAdapter 1).2 _ _ hf).2.2
      "no tip" rfl).2⟩

/-- C8: when a full-sync pass fails on an adapter call, the worker sends
the events emitted so far unchanged followed by a single `Error(message)`
(no rollback event), the pass is abandoned before `Complete`, and the
worker's state — client included — is untouched, so the next command is
processed normally.  The other failure paths equally reach an event: a
failing tip drain (`Pull`) emits `Error`, and a failing client
construction (`electrum_init`) emits `Error`. -/
theorem C8_failure_semantics (env : WorkerEnv) (fuel : Nat) (st : WState)
    (c : Nat) (t : List EMsg) (e : String)
    (hc : st.client = some c)
    (hfail : electrum_sync (env.adapter c) fuel = some (t, some e)) :
    workerStep env fuel st .sync = some (st, t ++ [.error e]) ∧
    .complete ∉ t ∧
    (∀ e2, (env.adapter c).pop = .error e2 →
      workerStep env fuel st .pull = some (st, [.error e2])) ∧
    (∀ srv, env.connects srv = false →
      electrum_init env srv = (none, [.error "connection failed"])) := by
  refine ⟨?_, ?_, ?_, ?_⟩
  · simp [workerStep, hc, workerSyncEvents, hfail]
  · exact (electrum_sync_shape (env.adapter c) fuel t (some e) hfail).2.2
      e rfl
  · intro e2 hp
    simp [workerStep, hc, hp]
  · intro srv hcon
    simp [electrum_init, hcon]

/-- Witness for `C8_failure_semantics` against the refusing environment:
a failing sync pass, a failing tip drain and a failing re-connection, each
reaching an `Error` event. -/
theorem C8_failure_semantics_witness :
    workerStep sampleEnvFail 1 ⟨0, some 0⟩ .sync =
      some (⟨0, some 0⟩, [.connecting, .connected] ++ [.error "no tip"]) ∧
    .complete ∉ ([.connecting, .connected] : List EMsg) ∧
    workerStep sampleEnvFail 1 ⟨0, some 0⟩ .pull =
      some (⟨0, some 0⟩, [.error "pop failed"]) ∧
    electrum_init sampleEnvFail 3 = (none, [.error "connection failed"]) := by
  have h := C8_failure_semantics sampleEnvFail 1 ⟨0, some 0⟩ 0
    [.connecting, .connected] "no tip" rfl rfl
  exact ⟨h.1, h.2.1, h.2.2.1 "pop failed" rfl, h.2.2.2 3 rfl⟩

/-- C9 counterexample.  The claim says every `UpdateServer` command —
"regardless of whether a connection currently exists" — swaps the endpoint
and immediately re-attempts connection with the Connecting/Error emission
of full-sync step 1.  Two concrete runs violate it: (1) with no client the
command is ignored entirely (the `(None, Ok(_))` arm): no endpoint swap,
no connection attempt, no events — even though the new endpoint would
accept; (2) with a client, the re-connection attempt emits no `Connecting`
event (only `Error` on failure). -/
theorem C9_counterexample :
    workerStep sampleEnv 1 ⟨0, none⟩ (.update 5) = some (⟨0, none⟩, []) ∧
    (⟨0, none⟩ : WState).settings ≠ 5 ∧
    workerStep sampleEnvFail 1 ⟨0, some 0⟩ (.update 5) =
      some (⟨5, none⟩, [.error "connection failed"]) ∧
    .connecting ∉ ([.error "connection failed"] : List EMsg) := by
  exact ⟨rfl, by decide, rfl, by decide⟩

/-- C9 amended: an `UpdateServer` command is acted upon only when a client
currently exists: the stored endpoint is swapped to the new server (even if
the new connection then fails) and a connection to it is immediately
re-attempted without a caller-issued FullSync — emitting `Error` on failure
but no `Connecting` event.  When no client exists, the command is ignored:
no endpoint swap, no connection attempt, no events. -/
theorem C9_update_dispatch (env : WorkerEnv) (fuel : Nat) (st : WState)
    (srv c : Nat) :
    (st.client = some c →
      workerStep env fuel st (.update srv) =
        some (⟨srv, (electrum_init env srv).1⟩, (electrum_init env srv).2) ∧
      (env.connects srv = true → electrum_init env srv = (some srv, [])) ∧
      (env.connects srv = false →
        electrum_init env srv = (none, [.error "connection failed"]) ∧
        .connecting ∉ (electrum_init env srv).2)) ∧
    (st.client = none → workerStep env fuel st (.update srv) = some (st, [])) := by
  constructor
  · intro hc
    refine ⟨by simp [workerStep, hc], ?_, ?_⟩
    · intro hcon
      simp [electrum_init, hcon]
    · intro hcon
      refine ⟨by simp [electrum_init, hcon], ?_⟩
      simp [electrum_init, hcon]
  · intro hn
    simp [workerStep, hn]

/-- Witness for `C9_update_dispatch`: endpoint swap with failing and
succeeding re-connection, and the ignored no-client case. -/
theorem C9_update_dispatch_witness :
    workerStep sampleEnvFail 1 ⟨0, some 0⟩ (.update 5) =
      some (⟨5, (electrum_init sampleEnvFail 5).1⟩,
        (electrum_init sampleEnvFail 5).2) ∧
    electrum_init sampleEnvFail 5 = (none, [.error "connection failed"]) ∧
    electrum_init sampleEnv 5 = (some 5, []) ∧
    workerStep sampleEnv 1 ⟨0, none⟩ (.update 5) = some (⟨0, none⟩, []) := by
  have h1 := C9_update_dispatch sampleEnvFail 1 ⟨0, some 0⟩ 5 0
  have h2 := C9_update_dispatch sampleEnv 1 ⟨0, some 0⟩ 5 0
  have h3 := C9_update_dispatch sampleEnv 1 ⟨0, none⟩ 5 0
  exact ⟨(h1.1 rfl).1, ((h1.1 rfl).2.2 rfl).1, (h2.1 rfl).2.1 rfl,
    h3.2 rfl⟩

end MyCitadel
